import Mathlib

/-
Verification of the mesh-reconstruction core of `PIFuHD/recontructor.py`
(class `Reconstructor`): the chunked attribute-resolution loop of
`_gen_mesh_gray` (lines 135-145), the unchunked colour resolution and the
world-calibration transform of `_gen_mesh_color` (lines 185-192), the
control flow of `evaluate` (lines 69-98), and the try/except structure of
both mesh-generation methods.

The learned networks (`calc_normal`, `projection`, `index`,
`reconstruction`), OpenCV and numpy's `inv` are external collaborators and
are modelled as function parameters / abstract stage outcomes; everything
else is translated from the source.
-/

namespace PIFuHD

/-- Stop index of the Python slice `a[l:r]` over an array of length `N`:
a negative `r` counts from the end (clamped below at `0`), a non-negative
`r` is clamped above at `N`.  In the source the final chunk uses `r = -1`. -/
def pySliceStop (N : Nat) (r : Int) : Nat :=
  if r < 0 then ((N : Int) + r).toNat else min r.toNat N

/-- The Python slice `xs[l:r]` for `0 ≤ l` and an already-resolved stop
index `r` (as produced by `pySliceStop`). -/
def listSlice {V : Type} (xs : List V) (l r : Nat) : List V :=
  (xs.drop l).take (r - l)

/-- State of the attribute-resolution loop of `_gen_mesh_gray`
(lines 135-145): the output array `color` (modelled as an index-addressed
buffer, as `np.zeros(verts.shape)` is) and the list of vertex chunks passed
to the attribute oracle, in call order. -/
structure RState (V A : Type) where
  color : Nat → A
  calls : List (List V)

/-- The `right` bound chosen by iteration `i` of the source loop
(lines 139-142): `-1` on the final iteration `i = len(color) // interval`,
otherwise `(i + 1) * interval`. -/
def chunkRight (N c i : Nat) : Int :=
  if i = N / c then (-1 : Int) else (((i + 1) * c : Nat) : Int)

/-- Resolved stop index of iteration `i`'s slice. -/
def chunkStop (N c i : Nat) : Nat :=
  pySliceStop N (chunkRight N c i)

/-- One iteration of the source loop (lines 137-145): slice the vertices,
invoke the attribute oracle `f` on the chunk, post-process each returned
attribute with `g` (`* 0.5 + 0.5` in the source), and write the results
into `color[left:right]`.  The value stored at index `j` of the slice is
the processed oracle output for vertex `j`. -/
def rStep {V A : Type} (f : V → A) (g : A → A) (d : V) (verts : List V) (c : Nat)
    (st : RState V A) (i : Nat) : RState V A :=
  let N := verts.length
  let left := min (i * c) N
  let stop := chunkStop N c i
  { color := fun j => if left ≤ j ∧ j < stop then g (f (verts.getD j d)) else st.color j
    calls := st.calls ++ [listSlice verts left stop] }

/-- `color = np.zeros(verts.shape)` (line 135): the buffer starts at the
zero attribute `z`, and no oracle call has happened yet. -/
def rInit {V A : Type} (z : A) : RState V A :=
  ⟨fun _ => z, []⟩

/-- The whole loop `for i in range(len(color) // interval + 1)`
(lines 137-145), with the chunk size `c` (`interval = 50000` in the
source) as a parameter. -/
def rLoop {V A : Type} (f : V → A) (g : A → A) (d : V) (z : A)
    (verts : List V) (c : Nat) : RState V A :=
  (List.range (verts.length / c + 1)).foldl (rStep f g d verts c) (rInit z)

/-- 3-vectors over ℚ: vertices, normals and colours are 3-channel. -/
abbrev Vec3 : Type := ℚ × ℚ × ℚ

/-- The zero 3-vector (each cell of `np.zeros(verts.shape)`). -/
def v0 : Vec3 := (0, 0, 0)

/-- The per-component remap `x * 0.5 + 0.5` (lines 144 and 188). -/
def remap1 (x : ℚ) : ℚ := x * (1 / 2) + 1 / 2

/-- The remap applied componentwise to a 3-channel attribute. -/
def remap3 (v : Vec3) : Vec3 := (remap1 v.1, remap1 v.2.1, remap1 v.2.2)

/-- `interval = 50000` (line 136): the chunk size of `_gen_mesh_gray`. -/
def interval : Nat := 50000

/-- The surface-normal attribute resolution of `_gen_mesh_gray`
(lines 135-145): oracle `f` abstracts `calc_normal` on a single vertex
(the source oracle is batched but elementwise and deterministic), the
post-map is `remap3`, the buffer starts at zero. -/
def grayResolve (f : Vec3 → Vec3) (verts : List Vec3) (c : Nat) : RState Vec3 Vec3 :=
  rLoop f remap3 v0 v0 verts c

/-- The final attribute array of `_gen_mesh_gray`, read back as a list of
length `len(verts)` (the shape `np.zeros` allocated). -/
def grayColors (f : Vec3 → Vec3) (verts : List Vec3) (c : Nat) : List Vec3 :=
  (List.range verts.length).map (grayResolve f verts c).color

/-- The chunks handed to the attribute oracle by `_gen_mesh_gray`, in call
order. -/
def grayCalls (f : Vec3 → Vec3) (verts : List Vec3) (c : Nat) : List (List Vec3) :=
  (grayResolve f verts c).calls

/-- The non-chunked reference resolution of spec §8: the deterministic
oracle applied to every vertex in one pass, with the same post-map. -/
def refResolve (f : Vec3 → Vec3) (verts : List Vec3) : List Vec3 :=
  verts.map (fun v => remap3 (f v))

/-- The colour attribute resolution of `_gen_mesh_color` (lines 185-188):
`projection` maps every vertex to oracle space, the first two components
are the image coordinates `uv`, `index` samples the image there, and the
result is remapped by `* 0.5 + 0.5` — all in one pass over every vertex. -/
def colorAttrOut (proj : Vec3 → Vec3) (img : ℚ × ℚ → Vec3) (verts : List Vec3) : List Vec3 :=
  verts.map (fun v => remap3 (img ((proj v).1, (proj v).2.1)))

/-- The vertex batches handed to the colour oracle by `_gen_mesh_color`:
a single call carrying the whole vertex list (lines 185-187 slice
nothing). -/
def colorAttrCalls (verts : List Vec3) : List (List Vec3) :=
  [verts]

/-- Homogeneous 4-vectors over ℚ. -/
abbrev Vec4 : Type := ℚ × ℚ × ℚ × ℚ

/-- 4×4 matrices over ℚ, as four rows (the `calib_world` transform and
its inverse). -/
abbrev Mat4 : Type := Vec4 × Vec4 × Vec4 × Vec4

/-- `np.concatenate([verts, np.ones_like(verts[:, :1])], 1)` for one row:
the vertex in homogeneous coordinates. -/
def homo (v : Vec3) : Vec4 :=
  (v.1, v.2.1, v.2.2, 1)

/-- Dot product of a matrix row with a homogeneous vector. -/
def dot4 (r w : Vec4) : ℚ :=
  r.1 * w.1 + r.2.1 * w.2.1 + r.2.2.1 * w.2.2.1 + r.2.2.2 * w.2.2.2

/-- One row of `np.matmul(H, M.T)`: the matrix applied to a homogeneous
vector. -/
def mulVec4 (M : Mat4) (w : Vec4) : Vec4 :=
  (dot4 M.1 w, dot4 M.2.1 w, dot4 M.2.2.1 w, dot4 M.2.2.2 w)

/-- Line 192 for one vertex: multiply the homogeneous vertex by the
(already inverted) calibration matrix and keep components `[:3]`,
dropping the homogeneous component. -/
def worldVert (Minv : Mat4) (v : Vec3) : Vec3 :=
  ((mulVec4 Minv (homo v)).1, (mulVec4 Minv (homo v)).2.1, (mulVec4 Minv (homo v)).2.2.1)

/-- Vertex finalisation of `_gen_mesh_color` (lines 190-192): when the
input data carries a `calib_world` matrix `C`, every vertex is replaced by
`inv(C)` applied in homogeneous coordinates; `npinv` is numpy's `inv`
(an external collaborator, passed as a function). -/
def finalVertsColor (npinv : Mat4 → Mat4) (verts : List Vec3) (cw : Option Mat4) : List Vec3 :=
  match cw with
  | some C => verts.map (worldVert (npinv C))
  | none => verts

/-- Vertex finalisation of `_gen_mesh_gray`: the corresponding
`calib_world` block (lines 131-133) is commented out in the source, so the
vertices are saved unchanged whether or not a calibration is supplied. -/
def finalVertsGray (verts : List Vec3) (cw : Option Mat4) : List Vec3 :=
  verts

/-- The diagonal matrix `diag(-1, -1, -1, 1)`.  It is its own matrix
inverse, so `npinv := id` returns its true inverse on this input. -/
def negDiag : Mat4 :=
  ((-1, 0, 0, 0), (0, -1, 0, 0), (0, 0, -1, 0), (0, 0, 0, 1))

/-- Observable events of one `_gen_mesh_gray` / `_gen_mesh_color` call:
a swallowed failure of the normal-map concatenation (lines 108-114,
`except: pass`), the preview-image write (line 126/178), the start of the
`reconstruction` call (line 128/180), the attribute-oracle stage
(lines 137-145 / 185-188), the final mesh write (line 147/194), and the
`print(e)` of the `except` handler (line 150/197). -/
inductive Ev : Type
  | nmlFail
  | pngWrite
  | reconRun
  | oracleRun
  | objWrite
  | errPrint
  deriving DecidableEq

/-- Outcomes of the external stages of one mesh-generation call: whether
the normal-map concatenation, the image assembly + `cv2.imwrite`, the
`reconstruction` call, the attribute oracle, and the mesh serialisation
raise or succeed. -/
structure RunEnv : Type where
  nmlOk : Bool
  pngOk : Bool
  reconOk : Bool
  oracleOk : Bool
  saveOk : Bool

/-- Lines 108-114: a failure while concatenating `nmlF`/`nmlB` is caught
by a bare `except: pass` — it is recorded but execution continues. -/
def frontEvents (env : RunEnv) : List Ev :=
  if env.nmlOk then [] else [Ev.nmlFail]

/-- Control flow of `_gen_mesh_gray` (lines 100-150): the `try` block
writes the preview PNG, runs `reconstruction`, runs the chunked normal
oracle, then writes the mesh and returns the pair of paths (modelled as
`some ()`); any exception inside the block jumps to `except`, which prints
the error and falls off the method — returning `None`. -/
def genMeshGrayRun (env : RunEnv) : List Ev × Option Unit :=
  if env.pngOk = false then
    (frontEvents env ++ [Ev.errPrint], none)
  else if env.reconOk = false then
    (frontEvents env ++ [Ev.pngWrite, Ev.reconRun, Ev.errPrint], none)
  else if env.oracleOk = false then
    (frontEvents env ++ [Ev.pngWrite, Ev.reconRun, Ev.oracleRun, Ev.errPrint], none)
  else if env.saveOk = false then
    (frontEvents env ++ [Ev.pngWrite, Ev.reconRun, Ev.oracleRun, Ev.errPrint], none)
  else
    (frontEvents env ++ [Ev.pngWrite, Ev.reconRun, Ev.oracleRun, Ev.objWrite], some ())

/-- Control flow of `_gen_mesh_color` (lines 152-197): same `try` block
shape, but the method has no `return` statement at all — it returns `None`
on success as well as on failure. -/
def genMeshColorRun (env : RunEnv) : List Ev × Option Unit :=
  if env.pngOk = false then
    (frontEvents env ++ [Ev.errPrint], none)
  else if env.reconOk = false then
    (frontEvents env ++ [Ev.pngWrite, Ev.reconRun, Ev.errPrint], none)
  else if env.oracleOk = false then
    (frontEvents env ++ [Ev.pngWrite, Ev.reconRun, Ev.oracleRun, Ev.errPrint], none)
  else if env.saveOk = false then
    (frontEvents env ++ [Ev.pngWrite, Ev.reconRun, Ev.oracleRun, Ev.errPrint], none)
  else
    (frontEvents env ++ [Ev.pngWrite, Ev.reconRun, Ev.oracleRun, Ev.objWrite], none)

/-- Python `range(a, b)` over integers. -/
def pyRangeZ (a b : Int) : List Int :=
  (List.range (b - a).toNat).map (fun k : Nat => a + (k : Int))

/-- Lines 71-72: a negative `start_id` is normalised to `0`. -/
def normStart (s : Int) : Int :=
  if s < 0 then 0 else s

/-- Lines 73-74: a negative `end_id` is normalised to the dataset
length. -/
def normEnd (e : Int) (len : Nat) : Int :=
  if e < 0 then (len : Int) else e

/-- The loop body of `evaluate` (lines 80-92) over the remaining range:
`break` when the index reaches the dataset length (the function then
falls through and returns `None`), otherwise the body unconditionally
returns the result of `_gen_mesh_gray` on item `i`.  The second component
records which dataset indices were processed. -/
def evalLoop {R : Type} (len : Nat) (gen : Int → Option R) : List Int → Option R × List Int
  | [] => (none, [])
  | i :: _rest => if (len : Int) ≤ i then (none, []) else (gen i, [i])

/-- `Reconstructor.evaluate` (lines 69-98) with the dataset abstracted to
its length and `_gen_mesh_gray` abstracted to `gen`. -/
def evaluateRun {R : Type} (startId endId : Int) (len : Nat) (gen : Int → Option R) :
    Option R × List Int :=
  evalLoop len gen (pyRangeZ (normStart startId) (normEnd endId len))

end PIFuHD

namespace PIFuHD

/-! Lemmas about the chunk loop. -/

theorem pySliceStop_neg_one (N : Nat) : pySliceStop N (-1) = N - 1 := by
  simp [pySliceStop]
  omega

theorem pySliceStop_ofNat (N r : Nat) : pySliceStop N (r : Int) = min r N := by
  simp [pySliceStop]

/-- The final iteration `i = N / c` resolves its `right = -1` bound to
`N - 1`: one short of the end of the array. -/
theorem chunkStop_last (N c : Nat) : chunkStop N c (N / c) = N - 1 := by
  simp [chunkStop, chunkRight, pySliceStop_neg_one]

/-- The state after the first `k` iterations, `k` at most `N / c`: indices
below `k * c` hold processed oracle outputs, the rest still hold the zero
initialiser. -/
theorem rLoopUpTo_color {V A : Type} (f : V → A) (g : A → A) (d : V) (z : A)
    (verts : List V) (c : Nat) (hc : 1 ≤ c) (k : Nat) (hk : k ≤ verts.length / c) (j : Nat) :
    (((List.range k).foldl (rStep f g d verts c) (rInit z)).color) j
      = if j < k * c then g (f (verts.getD j d)) else z := by
  induction k with
  | zero => simp [rInit]
  | succ k ih =>
    have hk' : k ≤ verts.length / c := Nat.le_of_succ_le hk
    have hkc1 : (k + 1) * c ≤ verts.length := by
      calc (k + 1) * c ≤ (verts.length / c) * c := Nat.mul_le_mul_right c hk
        _ ≤ verts.length := Nat.div_mul_le_self _ _
    have hkc : k * c ≤ verts.length :=
      le_trans (Nat.mul_le_mul_right c (Nat.le_succ k)) hkc1
    have hkne : k ≠ verts.length / c := by
      intro h
      have := Nat.lt_of_succ_le hk
      omega
    rw [List.range_succ, List.foldl_append]
    simp only [List.foldl_cons, List.foldl_nil]
    rw [rStep]
    simp only [min_eq_left hkc, chunkStop, chunkRight, if_neg hkne, pySliceStop_ofNat,
      min_eq_left hkc1]
    rw [ih hk']
    have hmul : (k + 1) * c = k * c + c := by ring
    by_cases h1 : k * c ≤ j ∧ j < (k + 1) * c
    · rw [if_pos h1, if_pos (by omega)]
    · rw [if_neg h1]
      by_cases h2 : j < k * c
      · rw [if_pos h2, if_pos (by omega)]
      · rw [if_neg h2, if_neg (by omega)]

/-- The chunks recorded after the first `k` iterations, `k` at most
`N / c`: chunk `i` is the slice `verts[i*c : (i+1)*c]`. -/
theorem rLoopUpTo_calls {V A : Type} (f : V → A) (g : A → A) (d : V) (z : A)
    (verts : List V) (c : Nat) (hc : 1 ≤ c) (k : Nat) (hk : k ≤ verts.length / c) :
    (((List.range k).foldl (rStep f g d verts c) (rInit z)).calls)
      = (List.range k).map (fun i => listSlice verts (i * c) ((i + 1) * c)) := by
  induction k with
  | zero => simp [rInit]
  | succ k ih =>
    have hk' : k ≤ verts.length / c := Nat.le_of_succ_le hk
    have hkc1 : (k + 1) * c ≤ verts.length := by
      calc (k + 1) * c ≤ (verts.length / c) * c := Nat.mul_le_mul_right c hk
        _ ≤ verts.length := Nat.div_mul_le_self _ _
    have hkc : k * c ≤ verts.length :=
      le_trans (Nat.mul_le_mul_right c (Nat.le_succ k)) hkc1
    have hkne : k ≠ verts.length / c := by
      intro h
      have := Nat.lt_of_succ_le hk
      omega
    rw [List.range_succ, List.foldl_append]
    simp only [List.foldl_cons, List.foldl_nil]
    rw [rStep]
    simp only [min_eq_left hkc, chunkStop, chunkRight, if_neg hkne, pySliceStop_ofNat,
      min_eq_left hkc1]
    rw [ih hk']
    simp

/-- Full characterisation of the output buffer: when `c` divides `N` every
index below `N` was written; otherwise every index below `N - 1` was
written and index `N - 1` (and everything above) still holds the zero
initialiser.  This is the `right = -1` final-chunk bound of line 140. -/
theorem rLoop_color {V A : Type} (f : V → A) (g : A → A) (d : V) (z : A)
    (verts : List V) (c : Nat) (hc : 1 ≤ c) (j : Nat) :
    (rLoop f g d z verts c).color j
      = if (if c ∣ verts.length then j < verts.length else j + 1 < verts.length)
          then g (f (verts.getD j d)) else z := by
  have hKc : (verts.length / c) * c ≤ verts.length := Nat.div_mul_le_self _ _
  rw [rLoop, List.range_succ, List.foldl_append]
  simp only [List.foldl_cons, List.foldl_nil]
  simp only [rStep, chunkStop_last, min_eq_left hKc]
  rw [rLoopUpTo_color f g d z verts c hc (verts.length / c) (le_refl _)]
  have hmod : verts.length % c + (verts.length / c) * c = verts.length :=
    Nat.mod_add_div' verts.length c
  have hdvd : c ∣ verts.length ↔ verts.length % c = 0 := Nat.dvd_iff_mod_eq_zero
  by_cases hd : c ∣ verts.length
  · have h0 : verts.length % c = 0 := hdvd.mp hd
    simp only [if_pos hd]
    by_cases h1 : (verts.length / c) * c ≤ j ∧ j < verts.length - 1
    · rw [if_pos h1, if_pos (by omega)]
    · rw [if_neg h1]
      by_cases h2 : j < (verts.length / c) * c
      · rw [if_pos h2, if_pos (by omega)]
      · rw [if_neg h2, if_neg (by omega)]
  · have h0 : verts.length % c ≠ 0 := fun h => hd (hdvd.mpr h)
    simp only [if_neg hd]
    by_cases h1 : (verts.length / c) * c ≤ j ∧ j < verts.length - 1
    · rw [if_pos h1, if_pos (by omega)]
    · rw [if_neg h1]
      by_cases h2 : j < (verts.length / c) * c
      · rw [if_pos h2, if_pos (by omega)]
      · rw [if_neg h2, if_neg (by omega)]

/-- Full characterisation of the oracle calls: `N / c` full chunks of size
`c`, followed by one final call on `verts[(N/c)*c : N-1]` — empty when `c`
divides `N` (in particular for `N = 0`), and missing vertex `N - 1`
otherwise. -/
theorem rLoop_calls {V A : Type} (f : V → A) (g : A → A) (d : V) (z : A)
    (verts : List V) (c : Nat) (hc : 1 ≤ c) :
    (rLoop f g d z verts c).calls
      = ((List.range (verts.length / c)).map
            (fun i => listSlice verts (i * c) ((i + 1) * c)))
          ++ [listSlice verts ((verts.length / c) * c) (verts.length - 1)] := by
  have hKc : (verts.length / c) * c ≤ verts.length := Nat.div_mul_le_self _ _
  rw [rLoop, List.range_succ, List.foldl_append]
  simp only [List.foldl_cons, List.foldl_nil]
  simp only [rStep, chunkStop_last, min_eq_left hKc]
  rw [rLoopUpTo_calls f g d z verts c hc (verts.length / c) (le_refl _)]

/-- Reading entry `j < N` of the output list gives the buffer cell `j`. -/
theorem grayColors_getD (f : Vec3 → Vec3) (verts : List Vec3) (c : Nat) (j : Nat)
    (hj : j < verts.length) :
    (grayColors f verts c).getD j v0 = (grayResolve f verts c).color j := by
  rw [grayColors, List.getD_eq_getElem?_getD, List.getElem?_map, List.getElem?_range hj]
  rfl

/-- Python `range(a, b)` is empty when `b ≤ a`. -/
theorem pyRangeZ_eq_nil (a b : Int) (h : b ≤ a) : pyRangeZ a b = [] := by
  rw [pyRangeZ, Int.toNat_eq_zero.mpr (by omega), List.range_zero, List.map_nil]

/-- Python `range(a, b)` starts at `a` when `a < b`. -/
theorem pyRangeZ_cons (a b : Int) (h : a < b) :
    pyRangeZ a b
      = a :: (List.range ((b - a).toNat - 1)).map (fun k : Nat => a + (k : Int) + 1) := by
  have h1 : (b - a).toNat = ((b - a).toNat - 1) + 1 := by omega
  rw [pyRangeZ, h1, List.range_succ_eq_map, List.map_cons, List.map_map]
  have hfun : ((fun k : Nat => a + (k : Int)) ∘ Nat.succ)
      = (fun k : Nat => a + (k : Int) + 1) := by
    funext k
    simp [Function.comp]
    ring
  rw [hfun]
  norm_num

/-- C1: the claim says the final chunk of the gray-path attribute loop
extends to index `N` inclusive, so that every vertex — including the
trailing `N mod chunkSize` ones — gets its attribute written.  The source
instead bounds the final chunk with `right = -1` (line 140), which the
Python slice resolves to `N - 1`: with 3 vertices and chunk size 2 the
last vertex is in no chunk, its attribute stays at the `np.zeros`
initialiser `(0,0,0)`, and that differs from its oracle value
`remap3 (3,3,3) = (2,2,2)`. -/
theorem C1_last_vertex_dropped :
    grayColors (fun v => v) [((1 : ℚ), 1, 1), (2, 2, 2), (3, 3, 3)] 2
        = [(1, 1, 1), (3/2, 3/2, 3/2), (0, 0, 0)]
      ∧ (((0 : ℚ), (0 : ℚ), (0 : ℚ)) : Vec3) ≠ remap3 (3, 3, 3) := by
  constructor
  · norm_num [grayColors, grayResolve, rLoop, rStep, rInit, chunkStop, chunkRight,
      pySliceStop, listSlice, remap3, remap1, v0, List.range_succ]
  · norm_num [remap3, remap1, Prod.ext_iff]

/-- C3: the claim says the chunked resolution agrees elementwise with the
non-chunked reference resolution also when `chunkSize` does not divide
`N`.  At 3 vertices and chunk size 2 the outputs differ (the reference
maps the last vertex through the oracle, the chunked loop leaves it at
zero). -/
theorem C3_chunked_ne_reference :
    grayColors (fun v => v) [((0 : ℚ), 0, 0), (2, 2, 2), (4, 4, 4)] 2
      ≠ refResolve (fun v => v) [((0 : ℚ), 0, 0), (2, 2, 2), (4, 4, 4)] := by
  norm_num [grayColors, grayResolve, rLoop, rStep, rInit, chunkStop, chunkRight,
    pySliceStop, listSlice, remap3, remap1, v0, refResolve, List.range_succ, Prod.ext_iff]

/-- C4 counterexample: the claim says zero oracle calls occur for an empty
vertex list, but the loop `for i in range(len(color) // interval + 1)`
always runs at least once, so one (empty-chunk) oracle call occurs. -/
theorem C4_empty_input_one_call :
    (grayCalls (fun v => v) ([] : List Vec3) 1).length ≠ 0 := by
  decide

/-- C4 amended: the gray-path resolver invokes the attribute oracle
exactly `N / chunkSize + 1` times — `ceil(N/chunkSize)` when `chunkSize`
does not divide `N`, and one more (an empty-chunk call, in particular one
call for `N = 0`) when it does. -/
theorem C4_call_count (f : Vec3 → Vec3) (verts : List Vec3) (c : Nat) (hc : 1 ≤ c) :
    (grayCalls f verts c).length = verts.length / c + 1 := by
  rw [grayCalls, grayResolve, rLoop_calls _ _ _ _ _ _ hc]
  simp

theorem C4_call_count_witness :
    (grayCalls (fun v => v) [((1 : ℚ), 1, 1)] 1).length = 2 :=
  C4_call_count (fun v => v) [((1 : ℚ), 1, 1)] 1 (le_refl 1)

/-- C5: the attribute array allocated by `np.zeros(verts.shape)` and
filled by the chunk loop has exactly one (3-channel) entry per extracted
vertex: its length equals the vertex count for every oracle, vertex list
and chunk size ≥ 1. -/
theorem C5_attr_length (f : Vec3 → Vec3) (verts : List Vec3) (c : Nat) (hc : 1 ≤ c) :
    (grayColors f verts c).length = verts.length := by
  simp [grayColors]

theorem C5_attr_length_witness :
    (grayColors (fun v => v) [((1 : ℚ), 1, 1), (2, 2, 2)] 2).length = 2 :=
  C5_attr_length (fun v => v) [((1 : ℚ), 1, 1), (2, 2, 2)] 2 (by decide)

/-- C6 counterexample: the claim says both attribute flavours query their
oracle in chunks of bounded size, but `_gen_mesh_color` passes the whole
vertex list to `index` in a single call: with `50001` vertices the single
call exceeds the gray path's chunk bound `interval = 50000`. -/
theorem C6_color_call_exceeds_chunk :
    ¬ (∀ ch ∈ colorAttrCalls (List.replicate 50001 v0), ch.length ≤ interval) := by
  intro h
  have h1 := h (List.replicate 50001 v0) (List.mem_singleton_self _)
  rw [List.length_replicate] at h1
  exact absurd h1 (by decide)

/-- C6 amended: only the surface-normal flavour is chunked — every chunk
it passes to the oracle has at most `chunkSize` vertices — while the
projected-colour flavour makes exactly one oracle call carrying the whole
vertex list. -/
theorem C6_gray_chunked_color_single (f : Vec3 → Vec3) (verts : List Vec3) (c : Nat)
    (hc : 1 ≤ c) :
    (∀ ch ∈ grayCalls f verts c, ch.length ≤ c) ∧ colorAttrCalls verts = [verts] := by
  refine ⟨?_, rfl⟩
  intro ch hch
  rw [grayCalls, grayResolve, rLoop_calls _ _ _ _ _ _ hc] at hch
  rcases List.mem_append.mp hch with h | h
  · rcases List.mem_map.mp h with ⟨i, hi, rfl⟩
    have hmul : (i + 1) * c = i * c + c := by ring
    simp only [listSlice, List.length_take, List.length_drop]
    omega
  · rcases List.mem_singleton.mp h with rfl
    have h2 : verts.length % c < c := Nat.mod_lt _ (by omega)
    have h3 : verts.length % c + (verts.length / c) * c = verts.length :=
      Nat.mod_add_div' verts.length c
    simp only [listSlice, List.length_take, List.length_drop]
    omega

theorem C6_gray_chunked_color_single_witness :
    (∀ ch ∈ grayCalls (fun v => v) [v0] 1, ch.length ≤ 1)
      ∧ colorAttrCalls [v0] = [[v0]] :=
  C6_gray_chunked_color_single (fun v => v) [v0] 1 (le_refl 1)

/-- C7 counterexample: the claim says that whenever a `calib_world`
transform is supplied, its inverse is applied to every vertex before the
mesh is finalised — the cited gray-path block (lines 131-133) is commented
out, so `_gen_mesh_gray` saves the vertices untransformed.  `negDiag` is
its own inverse, so `worldVert negDiag` is exactly "apply the inverse of
the supplied transform", yet the gray output differs from it. -/
theorem C7_gray_ignores_calib :
    finalVertsGray [((1 : ℚ), 2, 3)] (some negDiag)
      ≠ List.map (worldVert negDiag) [((1 : ℚ), 2, 3)] := by
  norm_num [finalVertsGray, worldVert, mulVec4, dot4, homo, negDiag, Prod.ext_iff]

/-- C7 amended: only `_gen_mesh_color` applies the inverted calibration
(homogeneous multiply, dropping the fourth component) to every vertex;
`_gen_mesh_gray` leaves the vertices unchanged even when a `calib_world`
matrix is supplied. -/
theorem C7_color_applies_inverse (npinv : Mat4 → Mat4) (verts : List Vec3) (C : Mat4) :
    finalVertsColor npinv verts (some C) = verts.map (worldVert (npinv C))
      ∧ finalVertsGray verts (some C) = verts :=
  ⟨rfl, rfl⟩

/-- C8: every oracle-returned normal that the gray path stores is remapped
componentwise by `x * 0.5 + 0.5` before being written (every written
entry equals `remap3` of the oracle value at that vertex), and this affine
map sends `[-1, 1]` into `[0, 1]`. -/
theorem C8_normals_remapped (f : Vec3 → Vec3) (verts : List Vec3) (c : Nat) (hc : 1 ≤ c)
    (j : Nat) (hcov : j + 1 < verts.length ∨ (c ∣ verts.length ∧ j < verts.length)) :
    (grayColors f verts c).getD j v0 = remap3 (f (verts.getD j v0))
      ∧ (∀ x : ℚ, -1 ≤ x → x ≤ 1 → 0 ≤ remap1 x ∧ remap1 x ≤ 1) := by
  constructor
  · have hj : j < verts.length := by
      rcases hcov with h | ⟨_, h⟩ <;> omega
    rw [grayColors_getD f verts c j hj, grayResolve, rLoop_color _ _ _ _ _ _ hc]
    by_cases hd : c ∣ verts.length
    · simp only [if_pos hd, if_pos hj]
    · rcases hcov with h | ⟨h, _⟩
      · simp only [if_neg hd, if_pos h]
      · exact absurd h hd
  · intro x h1 h2
    rw [remap1]
    constructor <;> linarith

theorem C8_normals_remapped_witness :
    (grayColors (fun v => v) [((0 : ℚ), 0, 0), (1, 1, 1)] 1).getD 0 v0
        = remap3 ([((0 : ℚ), 0, 0), (1, 1, 1)].getD 0 v0)
      ∧ (∀ x : ℚ, -1 ≤ x → x ≤ 1 → 0 ≤ remap1 x ∧ remap1 x ≤ 1) :=
  C8_normals_remapped (fun v => v) [((0 : ℚ), 0, 0), (1, 1, 1)] 1 (le_refl 1) 0
    (Or.inl (by decide))

/-- C2 counterexample: the claim says every failure during a
reconstruction call aborts the call, is surfaced to the caller, and that
success and failure are mutually exclusive outcomes.  A failure in the
normal-map concatenation stage (lines 108-114) is swallowed by a bare
`except: pass`: the call continues, writes the mesh and returns its
success value even though a failure occurred. -/
theorem C2_swallowed_failure :
    Ev.nmlFail ∈ (genMeshGrayRun ⟨false, true, true, true, true⟩).1
      ∧ (genMeshGrayRun ⟨false, true, true, true, true⟩).2 = some ()
      ∧ Ev.objWrite ∈ (genMeshGrayRun ⟨false, true, true, true, true⟩).1 := by
  decide

/-- C2 amended: a failure in any stage of the main `try` block aborts the
call — no mesh file is written, `_gen_mesh_gray` returns `None` (its
success value is the path pair, so the gray caller can distinguish), and
`_gen_mesh_color` returns `None` — but `_gen_mesh_color` returns `None`
on success too, so its caller cannot distinguish, and a failure in the
normal-map concatenation stage does not abort the call. -/
theorem C2_try_block_aborts : ∀ n p r o s : Bool,
    ((p && r && o && s) = false →
        (genMeshGrayRun ⟨n, p, r, o, s⟩).2 = none
          ∧ Ev.objWrite ∉ (genMeshGrayRun ⟨n, p, r, o, s⟩).1
          ∧ (genMeshColorRun ⟨n, p, r, o, s⟩).2 = none
          ∧ Ev.objWrite ∉ (genMeshColorRun ⟨n, p, r, o, s⟩).1
          ∧ Ev.errPrint ∈ (genMeshGrayRun ⟨n, p, r, o, s⟩).1)
      ∧ ((genMeshGrayRun ⟨n, p, r, o, s⟩).2 = some () ↔ (p && r && o && s) = true)
      ∧ (genMeshColorRun ⟨n, p, r, o, s⟩).2 = none := by
  decide

theorem C2_try_block_aborts_witness :
    (genMeshGrayRun ⟨true, true, false, true, true⟩).2 = none := by
  have h := C2_try_block_aborts true true false true true
  exact (h.1 (by decide)).1

/-- C9: one `evaluate` call produces at most one mesh: the loop body
returns from its first in-range iteration, so at most one dataset item is
processed; when the (normalised) `start_id` reaches the dataset length the
loop breaks at once and `evaluate` returns `None`; when the first index is
in range, the result is exactly `_gen_mesh_gray` on that item. -/
theorem C9_at_most_one_item {R : Type} (startId endId : Int) (len : Nat)
    (gen : Int → Option R) :
    (evaluateRun startId endId len gen).2.length ≤ 1
      ∧ ((len : Int) ≤ normStart startId →
          evaluateRun startId endId len gen = (none, []))
      ∧ (normStart startId < normEnd endId len → normStart startId < (len : Int) →
          evaluateRun startId endId len gen
            = (gen (normStart startId), [normStart startId])) := by
  by_cases hrange : normEnd endId len ≤ normStart startId
  · rw [evaluateRun, pyRangeZ_eq_nil _ _ hrange]
    exact ⟨by simp [evalLoop], fun _ => rfl, fun h1 _ => absurd h1 (by omega)⟩
  · push_neg at hrange
    rw [evaluateRun, pyRangeZ_cons _ _ hrange]
    by_cases hlen : (len : Int) ≤ normStart startId
    · rw [evalLoop, if_pos hlen]
      exact ⟨by simp, fun _ => rfl, fun _ h2 => absurd h2 (by omega)⟩
    · rw [evalLoop, if_neg hlen]
      exact ⟨by simp, fun h => absurd h hlen, fun _ _ => rfl⟩

theorem C9_at_most_one_item_witness :
    evaluateRun 5 (-1) 3 (fun _ => (none : Option Unit)) = (none, []) := by
  have h := C9_at_most_one_item 5 (-1) 3 (fun _ => (none : Option Unit))
  exact h.2.1 (by decide)

/-- C10: in both mesh-generation paths the preview PNG is written before
`reconstruction` is attempted (its trace position is earlier), and when
the PNG stage succeeded but a later stage raises, the exception is caught
and printed, the method returns `None`, and the PNG write remains in the
trace. -/
theorem C10_png_precedes_recon : ∀ n p r o s : Bool,
    (Ev.reconRun ∈ (genMeshGrayRun ⟨n, p, r, o, s⟩).1 →
        (genMeshGrayRun ⟨n, p, r, o, s⟩).1.indexOf Ev.pngWrite
          < (genMeshGrayRun ⟨n, p, r, o, s⟩).1.indexOf Ev.reconRun)
      ∧ (Ev.reconRun ∈ (genMeshColorRun ⟨n, p, r, o, s⟩).1 →
          (genMeshColorRun ⟨n, p, r, o, s⟩).1.indexOf Ev.pngWrite
            < (genMeshColorRun ⟨n, p, r, o, s⟩).1.indexOf Ev.reconRun)
      ∧ (p = true → (r = false ∨ o = false ∨ s = false) →
          Ev.pngWrite ∈ (genMeshGrayRun ⟨n, p, r, o, s⟩).1
            ∧ (genMeshGrayRun ⟨n, p, r, o, s⟩).2 = none
            ∧ Ev.errPrint ∈ (genMeshGrayRun ⟨n, p, r, o, s⟩).1
            ∧ Ev.pngWrite ∈ (genMeshColorRun ⟨n, p, r, o, s⟩).1
            ∧ (genMeshColorRun ⟨n, p, r, o, s⟩).2 = none
            ∧ Ev.errPrint ∈ (genMeshColorRun ⟨n, p, r, o, s⟩).1) := by
  decide

theorem C10_png_precedes_recon_witness :
    Ev.pngWrite ∈ (genMeshGrayRun ⟨true, true, false, true, true⟩).1
      ∧ (genMeshGrayRun ⟨true, true, false, true, true⟩).2 = none
      ∧ Ev.errPrint ∈ (genMeshGrayRun ⟨true, true, false, true, true⟩).1
      ∧ Ev.pngWrite ∈ (genMeshColorRun ⟨true, true, false, true, true⟩).1
      ∧ (genMeshColorRun ⟨true, true, false, true, true⟩).2 = none
      ∧ Ev.errPrint ∈ (genMeshColorRun ⟨true, true, false, true, true⟩).1 := by
  have h := C10_png_precedes_recon true true false true true
  exact h.2.2 rfl (Or.inl rfl)

end PIFuHD
